import Mathlib

/-!
Shallow embedding of the MiniLaser geometry and propagation solver
(src/src/lib.rs) together with the scene-graph snapshot it consumes.

Modelling conventions:
* `f32` scalars are modelled as real numbers (exact arithmetic);
  `f32::EPSILON` is the literal constant 2⁻²³ = 1/8388608.
* Decimal literals of the source (`0.1`, `0.97`, `0.8509`) are modelled
  as the corresponding exact rationals in ℝ.
* Diagnostic `debug_assert!` calls do not change any computed value and
  are therefore not part of the value-level embedding.
* The panicking `HashMap` index in `NodeNetwork::get_all_connections`
  is modelled as a fallible lookup: a missing endpoint id makes the
  whole snapshot return `none`.
* `glam`'s `Vec2::normalize` is `v * (1/‖v‖)`; on the zero vector the
  real-valued model yields the zero vector (division by zero is zero
  in ℝ), while `normalize_or_zero` tests for the zero vector first,
  mirroring the source's explicit branch.
-/

open Classical

/-- Two-dimensional vector (macroquad/glam `Vec2`, `f32` components
modelled as real numbers). -/
structure Vec2 where
  x : ℝ
  y : ℝ

def Vec2.add (v w : Vec2) : Vec2 := ⟨v.x + w.x, v.y + w.y⟩

def Vec2.sub (v w : Vec2) : Vec2 := ⟨v.x - w.x, v.y - w.y⟩

/-- Scalar multiple `k * v` (the source writes `v * k`). -/
def Vec2.smul (k : ℝ) (v : Vec2) : Vec2 := ⟨k * v.x, k * v.y⟩

instance : Add Vec2 := ⟨Vec2.add⟩

instance : Sub Vec2 := ⟨Vec2.sub⟩

instance : SMul ℝ Vec2 := ⟨Vec2.smul⟩

/-- glam `Vec2::dot`. -/
def Vec2.dot (v w : Vec2) : ℝ := v.x * w.x + v.y * w.y

/-- glam `Vec2::perp`: `self` rotated by 90 degrees, `(x, y) ↦ (-y, x)`. -/
def Vec2.perp (v : Vec2) : Vec2 := ⟨-v.y, v.x⟩

/-- glam `Vec2::perp_dot`: the two-dimensional cross product
`x₁·y₂ − y₁·x₂`. -/
def Vec2.perpDot (v w : Vec2) : ℝ := v.x * w.y - v.y * w.x

/-- glam `Vec2::length_squared`. -/
def Vec2.lengthSquared (v : Vec2) : ℝ := v.x * v.x + v.y * v.y

/-- glam `Vec2::length`. -/
noncomputable def Vec2.length (v : Vec2) : ℝ := Real.sqrt v.lengthSquared

/-- glam `Vec2::normalize`: `self * (1/length)`. -/
noncomputable def Vec2.normalize (v : Vec2) : Vec2 := (1 / v.length) • v

/-- glam `Vec2::normalize_or_zero`: the normalized vector, or zero for
the zero vector. -/
noncomputable def Vec2.normalizeOrZero (v : Vec2) : Vec2 :=
  if v = ⟨0, 0⟩ then ⟨0, 0⟩ else (1 / v.length) • v

/-- glam `Vec2::distance_squared`: `(self − rhs).length_squared()`. -/
def Vec2.distanceSquared (v w : Vec2) : ℝ := (v - w).lengthSquared

/-- macroquad `Color` (rgba, `f32` components modelled as ℝ). -/
structure Color where
  r : ℝ
  g : ℝ
  b : ℝ
  a : ℝ

/-- The source's `(c.to_vec() * k).to_array().into()`: componentwise
scaling of a color by a scalar, alpha included. -/
def scaleColor (c : Color) (k : ℝ) : Color := ⟨c.r * k, c.g * k, c.b * k, c.a * k⟩

/-- Componentwise color sum (vocabulary for the energy-conservation
property of the transparent split). -/
def colorAdd (c d : Color) : Color := ⟨c.r + d.r, c.g + d.g, c.b + d.b, c.a + d.a⟩

/-- `EdgeState`: the material carried by a segment. -/
inductive EdgeState where
  | Reflective
  | Absorptive
  | Transparent
deriving DecidableEq

/-- `Segment(Vec2, Vec2, EdgeState)`; the derived `PartialEq` is
componentwise equality, which structure equality mirrors. -/
structure Segment where
  p : Vec2
  q : Vec2
  state : EdgeState

/-- `CollisionInfo { position, normal }`. -/
structure CollisionInfo where
  position : Vec2
  normal : Vec2

/-- `Ray { origin, direction, color }`. -/
structure Ray where
  origin : Vec2
  direction : Vec2
  color : Color

/-- `f32::EPSILON` = 2⁻²³. -/
noncomputable def f32_EPSILON : ℝ := 1 / 8388608

/-- `Laser::MAX_DISTANCE` = 20 000. -/
def MAX_DISTANCE : ℝ := 20000

/-- `Ray::collides_with` line `let ray_dir = self.direction.normalize_or_zero();`. -/
noncomputable def rayDir (r : Ray) : Vec2 := r.direction.normalizeOrZero

/-- `Ray::collides_with` local `denominator = line_segment.dot(ray_dir_perp)`. -/
noncomputable def collisionDenominator (r : Ray) (s e : Vec2) : ℝ :=
  (e - s).dot (rayDir r).perp

/-- `Ray::collides_with` local `t1 = line_segment.perp_dot(start_to_origin) / denominator`. -/
noncomputable def collisionT1 (r : Ray) (s e : Vec2) : ℝ :=
  (e - s).perpDot (r.origin - s) / collisionDenominator r s e

/-- `Ray::collides_with` local `t2 = start_to_origin.dot(ray_dir_perp) / denominator`. -/
noncomputable def collisionT2 (r : Ray) (s e : Vec2) : ℝ :=
  (r.origin - s).dot (rayDir r).perp / collisionDenominator r s e

/-- `Ray::collides_with` local `collision = self.origin + ray_dir * t1`. -/
noncomputable def collisionPoint (r : Ray) (s e : Vec2) : Vec2 :=
  r.origin + collisionT1 r s e • rayDir r

/-- `Ray::collides_with` normal computation: the unit perpendicular of
the start-relative hit vector, falling back to the end-relative vector
when the hit coincides with the segment start. -/
noncomputable def collisionNormal (r : Ray) (s e : Vec2) : Vec2 :=
  if (collisionPoint r s e - s).lengthSquared ≤ f32_EPSILON
  then (collisionPoint r s e - e).normalize.perp
  else (collisionPoint r s e - s).normalize.perp

/-- `Ray::collides_with`: parametric ray/segment intersection.
Returns `none` for parallel configurations (denominator below
`f32::EPSILON` in magnitude) and when the solved parameters fall
outside `t1 ≥ 0`, `0 ≤ t2 ≤ 1`. -/
noncomputable def Ray.collidesWith (r : Ray) (other : Vec2 × Vec2) : Option (Vec2 × Vec2) :=
  if |collisionDenominator r other.1 other.2| < f32_EPSILON then none
  else if 0 ≤ collisionT1 r other.1 other.2 ∧ 0 ≤ collisionT2 r other.1 other.2 ∧
      collisionT2 r other.1 other.2 ≤ 1
  then some (collisionPoint r other.1 other.2, collisionNormal r other.1 other.2)
  else none

/-- Free function `reflect`: `direction - (2.0 * normal * direction.dot(normal))`,
then renormalized. -/
noncomputable def reflect (direction normal : Vec2) : Vec2 :=
  (direction - (2 * direction.dot normal) • normal).normalize

/-- The solver's criticality test for transparent segments:
`collision.normal.dot(ray.direction).abs().acos() == 0.8509`. -/
noncomputable def isCritical (ray : Ray) (col : CollisionInfo) : Prop :=
  Real.arccos |col.normal.dot ray.direction| = 0.8509

/-- The solver's stylized split weight:
`ray.direction.dot(collision.normal).powi(6) * 0.97`. -/
noncomputable def fresnelWeight (ray : Ray) (col : CollisionInfo) : ℝ :=
  (ray.direction.dot col.normal) ^ 6 * 0.97

/-- The child rays pushed onto the work queue for one resolved hit,
by material of the hit segment (`Laser::solve_collisions`, `match segment.2`). -/
noncomputable def childRays (ray : Ray) (col : CollisionInfo) (hitSeg : Segment) :
    List (Ray × Option Segment) :=
  match hitSeg.state with
  | EdgeState.Reflective =>
    [(⟨col.position, reflect ray.direction col.normal, ray.color⟩, some hitSeg)]
  | EdgeState.Transparent =>
    if isCritical ray col then
      [(⟨col.position, reflect ray.direction col.normal, ray.color⟩, some hitSeg)]
    else
      [(⟨col.position, reflect ray.direction col.normal,
          scaleColor ray.color (1 - fresnelWeight ray col)⟩, some hitSeg),
       (⟨col.position, ray.direction, scaleColor ray.color (fresnelWeight ray col)⟩,
          some hitSeg)]
  | EdgeState.Absorptive => []

/-- One comparison step of `Laser::find_closest_segment_new`: keep the
candidate hit only if it is strictly closer (squared distance) than the
current best collision. -/
noncomputable def fcsStep (ray : Ray) (seg : Segment) (acc : CollisionInfo × Option Segment) :
    CollisionInfo × Option Segment :=
  match ray.collidesWith (seg.p, seg.q) with
  | some (pos, nrm) =>
    if ray.origin.distanceSquared pos < ray.origin.distanceSquared acc.1.position
    then (⟨pos, nrm⟩, some seg) else acc
  | none => acc

/-- Iteration of `Laser::find_closest_segment_new` over the segment
list, skipping any segment equal (by value) to the originating one. -/
noncomputable def fcsLoop (ray : Ray) (originSeg : Option Segment) :
    List Segment → CollisionInfo × Option Segment → CollisionInfo × Option Segment
  | [], acc => acc
  | seg :: rest, acc =>
    match originSeg with
    | some o =>
      if seg = o then fcsLoop ray originSeg rest acc
      else fcsLoop ray originSeg rest (fcsStep ray seg acc)
    | none => fcsLoop ray originSeg rest (fcsStep ray seg acc)

/-- `Laser::find_closest_segment_new`: seeded with the sentinel
collision at `origin + direction * MAX_DISTANCE`; returns `none` when
no segment produced a strictly closer hit. -/
noncomputable def findClosestSegmentNew (ray : Ray) (segments : List Segment)
    (originSeg : Option Segment) : Option (CollisionInfo × Segment) :=
  match fcsLoop ray originSeg segments
      (⟨ray.origin + MAX_DISTANCE • ray.direction, ray.direction⟩, none) with
  | (col, some seg) => some (col, seg)
  | (_, none) => none

/-- A drawable segment `(Vec2, Vec2, Color)` emitted by the solver. -/
abbrev DrawSeg := Vec2 × Vec2 × Color

/-- The work-queue loop of `Laser::solve_collisions`: pop a ray,
discard it if its alpha is at most 0.1, otherwise intersect it against
the scene, enqueue child rays by material, emit one drawable segment,
and stop once `maxRays` drawable segments have been emitted. -/
noncomputable def solveLoop (segments : List Segment) (maxRays : ℕ) :
    List (Ray × Option Segment) → List DrawSeg → List DrawSeg
  | [], lines => lines
  | (ray, seg) :: rest, lines =>
    if ray.color.a ≤ 0.1 then solveLoop segments maxRays rest lines
    else
      match findClosestSegmentNew ray segments seg with
      | some (col, hitSeg) =>
        if maxRays ≤ (lines ++ [(ray.origin, col.position, ray.color)]).length
        then lines ++ [(ray.origin, col.position, ray.color)]
        else solveLoop segments maxRays (rest ++ childRays ray col hitSeg)
          (lines ++ [(ray.origin, col.position, ray.color)])
      | none =>
        if maxRays ≤
            (lines ++ [(ray.origin, ray.origin + MAX_DISTANCE • ray.direction, ray.color)]).length
        then lines ++ [(ray.origin, ray.origin + MAX_DISTANCE • ray.direction, ray.color)]
        else solveLoop segments maxRays rest
          (lines ++ [(ray.origin, ray.origin + MAX_DISTANCE • ray.direction, ray.color)])
termination_by queue lines => 3 * (maxRays - lines.length) + queue.length
decreasing_by
· simp only [List.length_cons]
  omega
· have hc : (childRays ray col hitSeg).length ≤ 2 := by
    unfold childRays
    split
    · simp
    · split <;> simp
    · simp
  simp only [List.length_append, List.length_cons, List.length_nil] at *
  omega
· simp only [List.length_append, List.length_cons, List.length_nil] at *
  omega

/-- `Laser::solve_collisions`: seed the queue with the initial ray and
run the work-queue loop.  The source reads the global `MAX_RAYS`
tuning value; it is threaded here as the `maxRays` parameter. -/
noncomputable def solveCollisions (ray : Ray) (segments : List Segment) (maxRays : ℕ) :
    List DrawSeg :=
  solveLoop segments maxRays [(ray, none)] []

/-- `Node`: only the `position` field is ever read by the snapshot and
solver path; the render-only fields (radius, color, hover and drag
state) are omitted. -/
structure NodeData where
  position : Vec2

/-- `Edge`: endpoint node ids and material; the render-only fields
(color, thickness, hover state) are omitted. -/
structure EdgeData where
  a : ℕ
  b : ℕ
  state : EdgeState

/-- `NodeNetwork`: `HashMap<usize, Node>` modelled as an association
list, plus the edge list. -/
structure NodeNetwork where
  nodes : List (ℕ × NodeData)
  connections : List EdgeData

/-- Lookup of a node by id (`self.nodes[&id]` resolves or panics). -/
def lookupNode (nodes : List (ℕ × NodeData)) (i : ℕ) : Option NodeData :=
  List.lookup i nodes

/-- Loop body of `NodeNetwork::get_all_connections`: resolve both
endpoints of every edge into a `Segment`.  The panicking map index of
the source is modelled by the whole snapshot returning `none` when an
endpoint id is missing. -/
def gacLoop (nodes : List (ℕ × NodeData)) : List EdgeData → Option (List Segment)
  | [] => some []
  | e :: rest =>
    match lookupNode nodes e.a, lookupNode nodes e.b, gacLoop nodes rest with
    | some na, some nb, some segs => some (⟨na.position, nb.position, e.state⟩ :: segs)
    | _, _, _ => none

/-- `NodeNetwork::get_all_connections`. -/
def getAllConnections (nn : NodeNetwork) : Option (List Segment) :=
  gacLoop nn.nodes nn.connections

/-- An edge resolves to a segment when both endpoint ids are present
and the segment copies their positions and the edge's material. -/
def edgeResolves (nodes : List (ℕ × NodeData)) (e : EdgeData) (s : Segment) : Prop :=
  ∃ na nb, lookupNode nodes e.a = some na ∧ lookupNode nodes e.b = some nb ∧
    s = ⟨na.position, nb.position, e.state⟩

/-- The laser ray's color `Color::new(1.0, 0.0, 0.0, 1.0)`. -/
def cColor : Color := ⟨1, 0, 0, 1⟩

/-- Concrete ray aimed perpendicular between two parallel mirrors. -/
def cRayM : Ray := ⟨⟨5, 0⟩, ⟨1, 0⟩, cColor⟩

/-- Concrete vertical mirror at x = 0. -/
def cMirrorA : Segment := ⟨⟨0, -10⟩, ⟨0, 10⟩, EdgeState.Reflective⟩

/-- Concrete vertical mirror at x = 10, facing `cMirrorA`. -/
def cMirrorB : Segment := ⟨⟨10, -10⟩, ⟨10, 10⟩, EdgeState.Reflective⟩

/-- Concrete ray travelling straight down, used against a horizontal
transparent segment (incidence angle 0). -/
def cRay2 : Ray := ⟨⟨2, 3⟩, ⟨0, -1⟩, cColor⟩

/-- Concrete collision for `cRay2`: hit point on the segment, upward
unit normal. -/
def cCol2 : CollisionInfo := ⟨⟨2, 0⟩, ⟨0, 1⟩⟩

/-- Concrete transparent segment for `cRay2`. -/
def cSeg2 : Segment := ⟨⟨0, 0⟩, ⟨4, 0⟩, EdgeState.Transparent⟩

/-- Concrete ray with a non-unit direction (length 2). -/
def cRay3 : Ray := ⟨⟨0, 0⟩, ⟨2, 0⟩, cColor⟩

/-- Concrete segment crossing the path of `cRay3`. -/
def cSeg3 : Vec2 × Vec2 := (⟨5, -1⟩, ⟨5, 1⟩)

/-- Concrete unit ray with incidence angle π/3 (beyond 0.8509 rad)
against an upward normal. -/
noncomputable def cRay5 : Ray := ⟨⟨0, 0⟩, ⟨Real.sqrt 3 / 2, -(1 / 2)⟩, cColor⟩

/-- Concrete collision for `cRay5`. -/
def cCol5 : CollisionInfo := ⟨⟨1, 1⟩, ⟨0, 1⟩⟩

/-- Concrete transparent segment for `cRay5`. -/
def cSeg5 : Segment := ⟨⟨0, 1⟩, ⟨2, 1⟩, EdgeState.Transparent⟩

/-- Concrete ray whose carried alpha 1/20 is below the 0.1 threshold. -/
noncomputable def cRayLow : Ray := ⟨⟨0, 0⟩, ⟨1, 0⟩, ⟨1, 0, 0, 1 / 20⟩⟩

/-- Concrete unit ray along the x-axis from the origin. -/
def cRay9 : Ray := ⟨⟨0, 0⟩, ⟨1, 0⟩, cColor⟩

/-- Concrete vertical segment exactly `MAX_DISTANCE` away from the
origin of `cRay9`. -/
def cSeg9 : Segment := ⟨⟨20000, -1⟩, ⟨20000, 1⟩, EdgeState.Reflective⟩

/-- Concrete network with one node (id 0) and one edge whose second
endpoint id 7 does not exist. -/
def cBrokenNetwork : NodeNetwork :=
  ⟨[(0, ⟨⟨3, 4⟩⟩)], [⟨0, 7, EdgeState.Reflective⟩]⟩

/-! ### Evaluation lemmas for the vector and color operations -/

@[simp] theorem Vec2.add_mk (a b c d : ℝ) :
    (Vec2.mk a b) + (Vec2.mk c d) = Vec2.mk (a + c) (b + d) := rfl

@[simp] theorem Vec2.sub_mk (a b c d : ℝ) :
    (Vec2.mk a b) - (Vec2.mk c d) = Vec2.mk (a - c) (b - d) := rfl

@[simp] theorem Vec2.smul_mk (k a b : ℝ) :
    k • (Vec2.mk a b) = Vec2.mk (k * a) (k * b) := rfl

@[simp] theorem Vec2.dot_mk (a b c d : ℝ) :
    (Vec2.mk a b).dot (Vec2.mk c d) = a * c + b * d := rfl

@[simp] theorem Vec2.perp_mk (a b : ℝ) :
    (Vec2.mk a b).perp = Vec2.mk (-b) a := rfl

@[simp] theorem Vec2.perpDot_mk (a b c d : ℝ) :
    (Vec2.mk a b).perpDot (Vec2.mk c d) = a * d - b * c := rfl

@[simp] theorem Vec2.lengthSquared_mk (a b : ℝ) :
    (Vec2.mk a b).lengthSquared = a * a + b * b := rfl

@[simp] theorem Vec2.distanceSquared_mk (a b c d : ℝ) :
    (Vec2.mk a b).distanceSquared (Vec2.mk c d) =
      (a - c) * (a - c) + (b - d) * (b - d) := rfl

/-! ### Unfolding lemmas for the solver loop -/

theorem solveLoop_nil {segments : List Segment} {maxRays : ℕ} {lines : List DrawSeg} :
    solveLoop segments maxRays [] lines = lines := by
  rw [solveLoop.eq_def]

theorem solveLoop_discard {segments : List Segment} {maxRays : ℕ} {ray : Ray}
    {orig : Option Segment} {rest : List (Ray × Option Segment)} {lines : List DrawSeg}
    (h : ray.color.a ≤ 0.1) :
    solveLoop segments maxRays ((ray, orig) :: rest) lines =
      solveLoop segments maxRays rest lines := by
  rw [solveLoop.eq_def]
  simp only [if_pos h]

theorem solveLoop_cons_hit {segments : List Segment} {maxRays : ℕ} {ray : Ray}
    {orig : Option Segment} {rest : List (Ray × Option Segment)} {lines : List DrawSeg}
    {col : CollisionInfo} {hitSeg : Segment}
    (h1 : ¬ ray.color.a ≤ 0.1)
    (h2 : findClosestSegmentNew ray segments orig = some (col, hitSeg)) :
    solveLoop segments maxRays ((ray, orig) :: rest) lines =
      if maxRays ≤ (lines ++ [(ray.origin, col.position, ray.color)]).length
      then lines ++ [(ray.origin, col.position, ray.color)]
      else solveLoop segments maxRays (rest ++ childRays ray col hitSeg)
        (lines ++ [(ray.origin, col.position, ray.color)]) := by
  rw [solveLoop.eq_def]
  simp only [if_neg h1, h2]

theorem solveLoop_cons_miss {segments : List Segment} {maxRays : ℕ} {ray : Ray}
    {orig : Option Segment} {rest : List (Ray × Option Segment)} {lines : List DrawSeg}
    (h1 : ¬ ray.color.a ≤ 0.1)
    (h2 : findClosestSegmentNew ray segments orig = none) :
    solveLoop segments maxRays ((ray, orig) :: rest) lines =
      if maxRays ≤
          (lines ++ [(ray.origin, ray.origin + MAX_DISTANCE • ray.direction, ray.color)]).length
      then lines ++ [(ray.origin, ray.origin + MAX_DISTANCE • ray.direction, ray.color)]
      else solveLoop segments maxRays rest
        (lines ++ [(ray.origin, ray.origin + MAX_DISTANCE • ray.direction, ray.color)]) := by
  rw [solveLoop.eq_def]
  simp only [if_neg h1, h2]

/-- Invariant behind the emitted-segment cap: starting strictly below
the cap, the loop never returns more than `maxRays` drawable segments. -/
theorem solveLoop_length_le (segments : List Segment) (maxRays : ℕ) :
    ∀ queue lines, lines.length < maxRays →
      (solveLoop segments maxRays queue lines).length ≤ maxRays := by
  intro queue lines
  induction queue, lines using solveLoop.induct segments maxRays with
  | case1 lines =>
    intro h
    rw [solveLoop_nil]
    exact h.le
  | case2 ray seg rest lines ha ih =>
    intro h
    rw [solveLoop_discard ha]
    exact ih h
  | case3 ray seg rest lines ha col hitSeg hfc hcap =>
    intro h
    rw [solveLoop_cons_hit ha hfc, if_pos hcap]
    simp only [List.length_append, List.length_cons, List.length_nil]
    omega
  | case4 ray seg rest lines ha col hitSeg hfc hcap ih =>
    intro h
    rw [solveLoop_cons_hit ha hfc, if_neg hcap]
    apply ih
    simp only [List.length_append, List.length_cons, List.length_nil] at hcap ⊢
    omega
  | case5 ray seg rest lines ha hfc hcap =>
    intro h
    rw [solveLoop_cons_miss ha hfc, if_pos hcap]
    simp only [List.length_append, List.length_cons, List.length_nil]
    omega
  | case6 ray seg rest lines ha hfc hcap ih =>
    intro h
    rw [solveLoop_cons_miss ha hfc, if_neg hcap]
    apply ih
    simp only [List.length_append, List.length_cons, List.length_nil] at hcap ⊢
    omega

/-- C1: for every initial ray, segment list and configured maximum ray
count `maxRays ≥ 1`, the solver `solve_collisions` terminates (it is a
total function, by the well-founded measure of `solveLoop`) and returns
a list of drawable segments of length at most `maxRays` — for every
scene, closed mirror loops included. -/
theorem C1_solve_length_bounded (ray : Ray) (segments : List Segment) (maxRays : ℕ)
    (h : 1 ≤ maxRays) :
    (solveCollisions ray segments maxRays).length ≤ maxRays := by
  apply solveLoop_length_le
  simpa using h

/-- Witness for C1 at a closed mirror loop: two parallel facing
Reflective segments with the ray aimed perpendicular between them. -/
theorem C1_witness : 1 ≤ 7 ∧ (solveCollisions cRayM [cMirrorA, cMirrorB] 7).length ≤ 7 :=
  ⟨by norm_num, C1_solve_length_bounded cRayM [cMirrorA, cMirrorB] 7 (by norm_num)⟩

/-- C7: every dequeued ray whose carried alpha is at or below the 0.1
threshold is discarded: the solver emits no drawable segment for it and
enqueues no child rays from it. -/
theorem C7_low_energy_discarded (segments : List Segment) (maxRays : ℕ) (ray : Ray)
    (orig : Option Segment) (rest : List (Ray × Option Segment)) (lines : List DrawSeg)
    (h : ray.color.a ≤ 0.1) :
    solveLoop segments maxRays ((ray, orig) :: rest) lines =
      solveLoop segments maxRays rest lines :=
  solveLoop_discard h

/-- Witness for C7: a ray with alpha 1/20 is dropped without emitting
a segment or enqueueing children. -/
theorem C7_witness : cRayLow.color.a ≤ 0.1 ∧
    solveLoop [] 5 [(cRayLow, none)] [] = solveLoop [] 5 ([] : List (Ray × Option Segment)) [] :=
  ⟨by norm_num [cRayLow], C7_low_energy_discarded [] 5 cRayLow none [] [] (by norm_num [cRayLow])⟩

/-! ### The transparent split and the criticality test -/

/-- Mathlib evaluation: `arccos (1/2) = π/3`. -/
theorem arccos_half_eq : Real.arccos (1 / 2) = Real.pi / 3 := by
  rw [← Real.cos_pi_div_three]
  exact Real.arccos_cos (by positivity) (by linarith [Real.pi_pos])

/-- The incidence of `cRay2` against `cCol2` is not critical:
`arccos 1 = 0 ≠ 0.8509`. -/
theorem cRay2_not_critical : ¬ isCritical cRay2 cCol2 := by
  unfold isCritical
  simp only [cRay2, cCol2, cColor, Vec2.dot_mk]
  rw [show ((0 : ℝ) * 0 + 1 * (-1)) = -1 by norm_num, abs_neg, abs_one, Real.arccos_one]
  norm_num

/-- C2: when a dequeued ray hits a Transparent segment at non-critical
incidence, the solver enqueues exactly two child rays at the hit point
— a reflected child with color = incoming color × (1 − fresnel) and a
transmitted child with the incoming direction and color = incoming
color × fresnel, fresnel = (direction·normal)⁶ · 0.97 — and the two
child colors sum componentwise to the incoming color. -/
theorem C2_transparent_split (ray : Ray) (col : CollisionInfo) (seg : Segment)
    (hs : seg.state = EdgeState.Transparent) (hc : ¬ isCritical ray col) :
    childRays ray col seg =
      [(⟨col.position, reflect ray.direction col.normal,
          scaleColor ray.color (1 - fresnelWeight ray col)⟩, some seg),
       (⟨col.position, ray.direction, scaleColor ray.color (fresnelWeight ray col)⟩,
          some seg)] ∧
    colorAdd (scaleColor ray.color (1 - fresnelWeight ray col))
      (scaleColor ray.color (fresnelWeight ray col)) = ray.color := by
  constructor
  · unfold childRays
    rw [hs]
    simp only [if_neg hc]
  · unfold colorAdd scaleColor
    cases ray.color with
    | mk r g b a =>
      simp only [Color.mk.injEq]
      refine ⟨by ring, by ring, by ring, by ring⟩

/-- Witness for C2: a straight-down ray against a horizontal
transparent segment (incidence angle 0, not critical). -/
theorem C2_witness :
    (cSeg2.state = EdgeState.Transparent ∧ ¬ isCritical cRay2 cCol2) ∧
    childRays cRay2 cCol2 cSeg2 =
      [(⟨cCol2.position, reflect cRay2.direction cCol2.normal,
          scaleColor cRay2.color (1 - fresnelWeight cRay2 cCol2)⟩, some cSeg2),
       (⟨cCol2.position, cRay2.direction, scaleColor cRay2.color (fresnelWeight cRay2 cCol2)⟩,
          some cSeg2)] ∧
    colorAdd (scaleColor cRay2.color (1 - fresnelWeight cRay2 cCol2))
      (scaleColor cRay2.color (fresnelWeight cRay2 cCol2)) = cRay2.color :=
  ⟨⟨rfl, cRay2_not_critical⟩, C2_transparent_split cRay2 cCol2 cSeg2 rfl cRay2_not_critical⟩

/-- The incidence angle of `cRay5` against the normal of `cCol5` is
`arccos (1/2) = π/3`, strictly beyond the constant 0.8509. -/
theorem cRay5_beyond : 0.8509 < Real.arccos |cCol5.normal.dot cRay5.direction| := by
  have hd : cCol5.normal.dot cRay5.direction = -(1 / 2) := by
    simp only [cRay5, cCol5, cColor, Vec2.dot_mk]
    ring
  rw [hd, abs_neg, show |(1 / 2 : ℝ)| = 1 / 2 from abs_of_pos (by norm_num), arccos_half_eq]
  have := Real.pi_gt_three
  linarith

/-- The criticality test fails for `cRay5` against `cCol5`. -/
theorem cRay5_not_critical : ¬ isCritical cRay5 cCol5 := by
  unfold isCritical
  intro h
  have hb := cRay5_beyond
  rw [h] at hb
  exact lt_irrefl _ hb

/-- The stylized split weight of `cRay5` against `cCol5` is
`(−1/2)⁶ · 0.97 = 97/6400`. -/
theorem cRay5_fresnel : fresnelWeight cRay5 cCol5 = 97 / 6400 := by
  unfold fresnelWeight
  simp only [cRay5, cCol5, cColor, Vec2.dot_mk]
  norm_num

/-- C5 amended: the solver's criticality test is the exact equation
`arccos |normal·direction| = 0.8509`; when it holds the reflected child
keeps the full incoming color and no transmitted child is enqueued;
when it fails — including every incidence strictly beyond 0.8509 — the
reflected child is scaled by (1 − fresnel) and a transmitted child
scaled by fresnel is also enqueued. -/
theorem C5_criticality_behavior (ray : Ray) (col : CollisionInfo) (seg : Segment)
    (hs : seg.state = EdgeState.Transparent) :
    (isCritical ray col ↔ Real.arccos |col.normal.dot ray.direction| = 0.8509) ∧
    (isCritical ray col →
      childRays ray col seg =
        [(⟨col.position, reflect ray.direction col.normal, ray.color⟩, some seg)]) ∧
    (¬ isCritical ray col →
      childRays ray col seg =
        [(⟨col.position, reflect ray.direction col.normal,
            scaleColor ray.color (1 - fresnelWeight ray col)⟩, some seg),
         (⟨col.position, ray.direction, scaleColor ray.color (fresnelWeight ray col)⟩,
            some seg)]) := by
  refine ⟨Iff.rfl, ?_, ?_⟩
  · intro h
    unfold childRays
    rw [hs]
    simp only [if_pos h]
  · intro h
    unfold childRays
    rw [hs]
    simp only [if_neg h]

/-- Counterexample for C5 as stated: at incidence angle π/3, strictly
beyond the code's critical-angle constant 0.8509, the Transparent
branch still enqueues a transmitted child carrying positive alpha
97/6400, and the reflected child does not keep the full incoming color
— the code does not behave as fully reflective beyond the critical
angle. -/
theorem C5_counterexample :
    0.8509 < Real.arccos |cCol5.normal.dot cRay5.direction| ∧
    childRays cRay5 cCol5 cSeg5 =
      [(⟨cCol5.position, reflect cRay5.direction cCol5.normal,
          scaleColor cRay5.color (1 - 97 / 6400)⟩, some cSeg5),
       (⟨cCol5.position, cRay5.direction, scaleColor cRay5.color (97 / 6400)⟩, some cSeg5)] ∧
    (scaleColor cRay5.color (97 / 6400)).a = 97 / 6400 ∧
    scaleColor cRay5.color (1 - 97 / 6400) ≠ cRay5.color := by
  refine ⟨cRay5_beyond, ?_, ?_, ?_⟩
  · unfold childRays
    rw [show cSeg5.state = EdgeState.Transparent from rfl]
    simp only [if_neg cRay5_not_critical, cRay5_fresnel]
  · simp [scaleColor, cRay5, cColor]
  · intro h
    have ha := congrArg Color.a h
    simp only [scaleColor, cRay5, cColor] at ha
    norm_num at ha

/-- Witness for C5's amended theorem at a concrete non-critical input. -/
theorem C5_witness :
    cSeg2.state = EdgeState.Transparent ∧
    childRays cRay2 cCol2 cSeg2 =
      [(⟨cCol2.position, reflect cRay2.direction cCol2.normal,
          scaleColor cRay2.color (1 - fresnelWeight cRay2 cCol2)⟩, some cSeg2),
       (⟨cCol2.position, cRay2.direction, scaleColor cRay2.color (fresnelWeight cRay2 cCol2)⟩,
          some cSeg2)] :=
  ⟨rfl, (C5_criticality_behavior cRay2 cCol2 cSeg2 rfl).2.2 cRay2_not_critical⟩

/-! ### Vector normalization lemmas and concrete evaluations -/

theorem Vec2.lengthSquared_nonneg (v : Vec2) : 0 ≤ v.lengthSquared := by
  cases v with
  | mk a b =>
    simp only [Vec2.lengthSquared_mk]
    exact add_nonneg (mul_self_nonneg a) (mul_self_nonneg b)

theorem Vec2.lengthSquared_pos {v : Vec2} (h : v ≠ Vec2.mk 0 0) : 0 < v.lengthSquared := by
  cases v with
  | mk a b =>
    have hne : a ≠ 0 ∨ b ≠ 0 := by
      by_contra hc
      push_neg at hc
      exact h (by simp [hc.1, hc.2])
    have hpos : 0 < a * a + b * b := by
      rcases hne with ha | hb
      · have h1 := mul_self_nonneg b
        have h2 : 0 < a * a := mul_self_pos.mpr ha
        linarith
      · have h1 := mul_self_nonneg a
        have h2 : 0 < b * b := mul_self_pos.mpr hb
        linarith
    simpa [Vec2.lengthSquared_mk] using hpos

theorem Vec2.length_pos {v : Vec2} (h : v ≠ Vec2.mk 0 0) : 0 < v.length :=
  Real.sqrt_pos.mpr (Vec2.lengthSquared_pos h)

theorem Vec2.lengthSquared_smul (k : ℝ) (v : Vec2) :
    (k • v).lengthSquared = k ^ 2 * v.lengthSquared := by
  cases v with
  | mk a b =>
    simp only [Vec2.smul_mk, Vec2.lengthSquared_mk]
    ring

theorem Vec2.one_smul_vec (v : Vec2) : (1 : ℝ) • v = v := by
  cases v with
  | mk a b => simp [Vec2.smul_mk]

theorem Vec2.normalizeOrZero_zero : (Vec2.mk 0 0).normalizeOrZero = Vec2.mk 0 0 := by
  simp [Vec2.normalizeOrZero]

theorem Vec2.normalizeOrZero_of_ne {v : Vec2} (h : v ≠ Vec2.mk 0 0) :
    v.normalizeOrZero = (1 / v.length) • v := by
  rw [Vec2.normalizeOrZero, if_neg h]

/-- Renormalizing an already-normalized vector changes nothing. -/
theorem Vec2.normalizeOrZero_idem (v : Vec2) :
    v.normalizeOrZero.normalizeOrZero = v.normalizeOrZero := by
  by_cases h : v = Vec2.mk 0 0
  · subst h
    rw [Vec2.normalizeOrZero_zero, Vec2.normalizeOrZero_zero]
  · rw [Vec2.normalizeOrZero_of_ne h]
    have hlv : 0 < v.length := Vec2.length_pos h
    have hu_ne : (1 / v.length) • v ≠ Vec2.mk 0 0 := by
      intro h0
      apply h
      cases v with
      | mk a b =>
        simp only [Vec2.smul_mk, Vec2.mk.injEq] at h0
        have hl0 : (1 / Vec2.length (Vec2.mk a b)) ≠ 0 := ne_of_gt (div_pos one_pos hlv)
        simp only [Vec2.mk.injEq]
        exact ⟨(mul_eq_zero.mp h0.1).resolve_left hl0,
               (mul_eq_zero.mp h0.2).resolve_left hl0⟩
    rw [Vec2.normalizeOrZero_of_ne hu_ne]
    have hul : ((1 / v.length) • v).length = 1 := by
      unfold Vec2.length
      rw [Vec2.lengthSquared_smul]
      rw [Real.sqrt_mul (by positivity)]
      rw [Real.sqrt_sq (by positivity)]
      have hs : Real.sqrt v.lengthSquared = v.length := rfl
      rw [hs]
      field_simp
    rw [hul]
    rw [show (1 : ℝ) / 1 = 1 by norm_num]
    exact Vec2.one_smul_vec _

theorem sqrt_four_eq : Real.sqrt 4 = 2 := by
  rw [show (4 : ℝ) = 2 ^ 2 by norm_num]
  exact Real.sqrt_sq (by norm_num)

theorem nz_two_zero : (Vec2.mk 2 0).normalizeOrZero = Vec2.mk 1 0 := by
  rw [Vec2.normalizeOrZero_of_ne (by norm_num [Vec2.mk.injEq])]
  unfold Vec2.length
  simp only [Vec2.lengthSquared_mk]
  rw [show (2 : ℝ) * 2 + 0 * 0 = 4 by norm_num, sqrt_four_eq]
  simp only [Vec2.smul_mk]
  norm_num

theorem nz_one_zero : (Vec2.mk 1 0).normalizeOrZero = Vec2.mk 1 0 := by
  rw [Vec2.normalizeOrZero_of_ne (by norm_num [Vec2.mk.injEq])]
  unfold Vec2.length
  simp only [Vec2.lengthSquared_mk]
  rw [show (1 : ℝ) * 1 + 0 * 0 = 1 by norm_num, Real.sqrt_one]
  simp only [Vec2.smul_mk]
  norm_num

theorem normalize_zero_one : (Vec2.mk 0 1).normalize = Vec2.mk 0 1 := by
  unfold Vec2.normalize Vec2.length
  simp only [Vec2.lengthSquared_mk]
  rw [show (0 : ℝ) * 0 + 1 * 1 = 1 by norm_num, Real.sqrt_one]
  simp only [Vec2.smul_mk]
  norm_num

/-! ### The intersection contract (C4) -/

/-- C4: the intersection primitive returns `none` for parallel
configurations (denominator magnitude below `f32::EPSILON`), for hits
behind the origin (`t1 < 0`), for segment parameters outside `[0, 1]`,
and in particular a degenerate segment (`start = end`) never produces
a hit. -/
theorem C4_collides_with_contract (r : Ray) (s e : Vec2) :
    (|collisionDenominator r s e| < f32_EPSILON → r.collidesWith (s, e) = none) ∧
    (collisionT1 r s e < 0 → r.collidesWith (s, e) = none) ∧
    ((collisionT2 r s e < 0 ∨ 1 < collisionT2 r s e) → r.collidesWith (s, e) = none) ∧
    (s = e → r.collidesWith (s, e) = none) := by
  have hpar : |collisionDenominator r s e| < f32_EPSILON → r.collidesWith (s, e) = none := by
    intro h
    unfold Ray.collidesWith
    rw [if_pos h]
  have ht1 : collisionT1 r s e < 0 → r.collidesWith (s, e) = none := by
    intro h
    unfold Ray.collidesWith
    by_cases hd : |collisionDenominator r s e| < f32_EPSILON
    · rw [if_pos hd]
    · rw [if_neg hd, if_neg]
      intro hcond
      exact absurd hcond.1 (not_le.mpr h)
  have ht2 : (collisionT2 r s e < 0 ∨ 1 < collisionT2 r s e) →
      r.collidesWith (s, e) = none := by
    intro h
    unfold Ray.collidesWith
    by_cases hd : |collisionDenominator r s e| < f32_EPSILON
    · rw [if_pos hd]
    · rw [if_neg hd, if_neg]
      intro hcond
      rcases h with h | h
      · exact absurd hcond.2.1 (not_le.mpr h)
      · exact absurd hcond.2.2 (not_le.mpr h)
  refine ⟨hpar, ht1, ht2, ?_⟩
  intro h
  subst h
  apply hpar
  have hz : collisionDenominator r s s = 0 := by
    unfold collisionDenominator
    cases s with
    | mk a b =>
      simp only [Vec2.sub_mk]
      rw [show a - a = (0 : ℝ) by ring, show b - b = (0 : ℝ) by ring]
      cases hp : (rayDir r).perp with
      | mk c d => simp only [Vec2.dot_mk]; ring
  rw [hz]
  norm_num [f32_EPSILON]

/-- Witness for C4 at a degenerate segment. -/
theorem C4_witness :
    (Vec2.mk 1 2 = Vec2.mk 1 2) ∧ cRay9.collidesWith (⟨1, 2⟩, ⟨1, 2⟩) = none :=
  ⟨rfl, (C4_collides_with_contract cRay9 ⟨1, 2⟩ ⟨1, 2⟩).2.2.2 rfl⟩

/-! ### Renormalization inside the intersection primitive (C3) -/

/-- C3 amended: the intersection primitive's result depends only on the
renormalized direction — `collides_with` silently renormalizes the ray
direction (`normalize_or_zero`) instead of rejecting non-unit input. -/
theorem C3_collides_with_renormalizes (r : Ray) (other : Vec2 × Vec2) :
    Ray.collidesWith ⟨r.origin, r.direction.normalizeOrZero, r.color⟩ other =
      r.collidesWith other := by
  simp only [Ray.collidesWith, collisionDenominator, collisionT1, collisionT2,
    collisionPoint, collisionNormal, rayDir, Vec2.normalizeOrZero_idem]

/-- Evaluation of the intersection primitive for a ray from the origin
whose renormalized direction is the positive x-axis, against the
vertical segment from `(z, -1)` to `(z, 1)`. -/
theorem collidesWith_vertical (r : Ray) (z : ℝ) (ho : r.origin = Vec2.mk 0 0)
    (hd : rayDir r = Vec2.mk 1 0) (hz : 0 < z) :
    r.collidesWith (⟨z, -1⟩, ⟨z, 1⟩) = some (⟨z, 0⟩, ⟨-1, 0⟩) := by
  have hden : collisionDenominator r ⟨z, -1⟩ ⟨z, 1⟩ = 2 := by
    unfold collisionDenominator
    rw [hd]
    simp only [Vec2.sub_mk, Vec2.perp_mk, Vec2.dot_mk]
    ring
  have ht1 : collisionT1 r ⟨z, -1⟩ ⟨z, 1⟩ = z := by
    unfold collisionT1
    rw [hden, ho]
    simp only [Vec2.sub_mk, Vec2.perpDot_mk]
    ring
  have ht2 : collisionT2 r ⟨z, -1⟩ ⟨z, 1⟩ = 1 / 2 := by
    unfold collisionT2
    rw [hden, ho, hd]
    simp only [Vec2.sub_mk, Vec2.perp_mk, Vec2.dot_mk]
    ring
  have hpt : collisionPoint r ⟨z, -1⟩ ⟨z, 1⟩ = Vec2.mk z 0 := by
    unfold collisionPoint
    rw [ht1, ho, hd]
    simp only [Vec2.smul_mk, Vec2.add_mk, Vec2.mk.injEq]
    constructor <;> ring
  have hsub : Vec2.mk z 0 - Vec2.mk z (-1) = Vec2.mk 0 1 := by
    simp only [Vec2.sub_mk, Vec2.mk.injEq]
    constructor <;> ring
  have hnrm : collisionNormal r ⟨z, -1⟩ ⟨z, 1⟩ = Vec2.mk (-1) 0 := by
    unfold collisionNormal
    rw [hpt, hsub]
    rw [if_neg (by norm_num [Vec2.lengthSquared_mk, f32_EPSILON])]
    rw [normalize_zero_one]
    rfl
  show (if |collisionDenominator r ⟨z, -1⟩ ⟨z, 1⟩| < f32_EPSILON then none
    else if 0 ≤ collisionT1 r ⟨z, -1⟩ ⟨z, 1⟩ ∧ 0 ≤ collisionT2 r ⟨z, -1⟩ ⟨z, 1⟩ ∧
        collisionT2 r ⟨z, -1⟩ ⟨z, 1⟩ ≤ 1
    then some (collisionPoint r ⟨z, -1⟩ ⟨z, 1⟩, collisionNormal r ⟨z, -1⟩ ⟨z, 1⟩)
    else none) = some (⟨z, 0⟩, ⟨-1, 0⟩)
  rw [hden, ht1, ht2, hpt, hnrm]
  rw [if_neg (by norm_num [f32_EPSILON])]
  rw [if_pos ⟨le_of_lt hz, by norm_num, by norm_num⟩]

/-- Counterexample for C3 as stated: a ray whose direction has length
2 (not unit) is not rejected by the intersection primitive — it is
processed and yields the same hit as the renormalized unit ray,
because `collides_with` renormalizes the direction internally. -/
theorem C3_counterexample :
    cRay3.direction.lengthSquared ≠ 1 ∧
    cRay3.collidesWith cSeg3 = some (⟨5, 0⟩, ⟨-1, 0⟩) := by
  constructor
  · show (Vec2.mk 2 0).lengthSquared ≠ 1
    simp only [Vec2.lengthSquared_mk]
    norm_num
  · show cRay3.collidesWith (⟨5, -1⟩, ⟨5, 1⟩) = some (⟨5, 0⟩, ⟨-1, 0⟩)
    apply collidesWith_vertical cRay3 5 rfl ?_ (by norm_num)
    show (Vec2.mk 2 0).normalizeOrZero = Vec2.mk 1 0
    exact nz_two_zero

/-! ### The closest-segment search and the miss branch (C6, C9, C10) -/

/-- Unfolding of one `find_closest_segment_new` iteration: a segment
value-equal to the originating one is skipped, any other is compared. -/
theorem fcsLoop_cons (ray : Ray) (orig : Option Segment) (seg : Segment)
    (rest : List Segment) (acc : CollisionInfo × Option Segment) :
    fcsLoop ray orig (seg :: rest) acc =
      if orig = some seg then fcsLoop ray orig rest acc
      else fcsLoop ray orig rest (fcsStep ray seg acc) := by
  cases orig with
  | none => simp [fcsLoop]
  | some o =>
    by_cases h : seg = o
    · subst h
      simp [fcsLoop]
    · have h2 : ¬ (some o = some seg) := by
        simp only [Option.some.injEq]
        exact fun hh => h hh.symm
      rw [if_neg h2]
      simp only [fcsLoop]
      rw [if_neg h]

theorem fcsLoop_append (ray : Ray) (orig : Option Segment) :
    ∀ (xs ys : List Segment) (acc : CollisionInfo × Option Segment),
      fcsLoop ray orig (xs ++ ys) acc = fcsLoop ray orig ys (fcsLoop ray orig xs acc) := by
  intro xs
  induction xs with
  | nil => intro ys acc; rfl
  | cons seg rest ih =>
    intro ys acc
    rw [List.cons_append, fcsLoop_cons, fcsLoop_cons]
    by_cases h : orig = some seg
    · rw [if_pos h, if_pos h, ih]
    · rw [if_neg h, if_neg h, ih]

/-- When every hit over the list is at least as far as the current best
collision, the search accumulator never changes. -/
theorem fcsLoop_keeps (ray : Ray) (orig : Option Segment) :
    ∀ (xs : List Segment) (best : CollisionInfo),
      (∀ seg ∈ xs, ∀ p n, ray.collidesWith (seg.p, seg.q) = some (p, n) →
        ray.origin.distanceSquared best.position ≤ ray.origin.distanceSquared p) →
      fcsLoop ray orig xs (best, none) = (best, none) := by
  intro xs
  induction xs with
  | nil => intro best _; rfl
  | cons seg rest ih =>
    intro best h
    have hrest : ∀ s ∈ rest, ∀ p n, ray.collidesWith (s.p, s.q) = some (p, n) →
        ray.origin.distanceSquared best.position ≤ ray.origin.distanceSquared p :=
      fun s hs => h s (List.mem_cons_of_mem _ hs)
    rw [fcsLoop_cons]
    by_cases ho : orig = some seg
    · rw [if_pos ho]
      exact ih best hrest
    · rw [if_neg ho]
      have hstep : fcsStep ray seg (best, none) = (best, none) := by
        unfold fcsStep
        cases hc : ray.collidesWith (seg.p, seg.q) with
        | none => rfl
        | some pr =>
          obtain ⟨p, n⟩ := pr
          exact if_neg (not_lt.mpr (h seg (List.mem_cons_self _ _) p n hc))
      rw [hstep]
      exact ih best hrest

/-- Squared distance from a point to the tip of a scaled direction. -/
theorem distanceSquared_ray_end (o d : Vec2) (k : ℝ) :
    o.distanceSquared (o + k • d) = k ^ 2 * d.lengthSquared := by
  cases o with
  | mk ox oy =>
    cases d with
    | mk dx dy =>
      simp only [Vec2.smul_mk, Vec2.add_mk, Vec2.distanceSquared_mk, Vec2.lengthSquared_mk]
      ring

/-- The search over the empty segment list finds nothing. -/
theorem findClosest_nil (ray : Ray) (orig : Option Segment) :
    findClosestSegmentNew ray [] orig = none := by
  unfold findClosestSegmentNew
  rfl

/-- C6: for every dequeued ray with alpha above the threshold for which
no intersection is found, the solver emits exactly one drawable segment
from the ray origin to `origin + direction * MAX_DISTANCE` with the
ray's color, enqueueing no children; in particular a solve over the
empty segment list returns exactly that one segment, and
`MAX_DISTANCE = 20000`. -/
theorem C6_miss_escape (segments : List Segment) (maxRays : ℕ) (ray : Ray)
    (orig : Option Segment) (rest : List (Ray × Option Segment)) (lines : List DrawSeg)
    (ha : 0.1 < ray.color.a)
    (hnone : findClosestSegmentNew ray segments orig = none) :
    (solveLoop segments maxRays ((ray, orig) :: rest) lines =
      if maxRays ≤
          (lines ++ [(ray.origin, ray.origin + MAX_DISTANCE • ray.direction, ray.color)]).length
      then lines ++ [(ray.origin, ray.origin + MAX_DISTANCE • ray.direction, ray.color)]
      else solveLoop segments maxRays rest
        (lines ++ [(ray.origin, ray.origin + MAX_DISTANCE • ray.direction, ray.color)])) ∧
    solveCollisions ray [] maxRays =
      [(ray.origin, ray.origin + MAX_DISTANCE • ray.direction, ray.color)] ∧
    MAX_DISTANCE = 20000 := by
  refine ⟨solveLoop_cons_miss (not_le.mpr ha) hnone, ?_, rfl⟩
  unfold solveCollisions
  rw [solveLoop_cons_miss (not_le.mpr ha) (findClosest_nil ray none)]
  simp only [List.nil_append, List.length_cons, List.length_nil]
  by_cases h : maxRays ≤ 1
  · rw [if_pos h]
  · rw [if_neg h, solveLoop_nil]

/-- Witness for C6: a solve over the empty segment list. -/
theorem C6_witness :
    0.1 < cRay9.color.a ∧
    solveCollisions cRay9 [] 3 =
      [(cRay9.origin, cRay9.origin + MAX_DISTANCE • cRay9.direction, cRay9.color)] := by
  have ha : (0.1 : ℝ) < cRay9.color.a := by norm_num [cRay9, cColor]
  have hn : findClosestSegmentNew cRay9 [] none = none := findClosest_nil cRay9 none
  exact ⟨ha, (C6_miss_escape [] 3 cRay9 none [] [] ha hn).2.1⟩

/-- C9: when every actual hit over the supplied segments lies at
squared distance at least `MAX_DISTANCE²` from the origin of a
unit-direction ray, the search — seeded with the sentinel collision at
`origin + direction * MAX_DISTANCE`, replaced only by strictly closer
hits — reports no intersection, and the ray is drawn as escaping to
`origin + direction * MAX_DISTANCE`. -/
theorem C9_far_hits_unreported (ray : Ray) (segments : List Segment) (orig : Option Segment)
    (maxRays : ℕ)
    (hunit : ray.direction.lengthSquared = 1)
    (ha : 0.1 < ray.color.a)
    (hfar : ∀ seg ∈ segments, ∀ p n, ray.collidesWith (seg.p, seg.q) = some (p, n) →
      MAX_DISTANCE ^ 2 ≤ ray.origin.distanceSquared p) :
    findClosestSegmentNew ray segments orig = none ∧
    solveCollisions ray segments maxRays =
      [(ray.origin, ray.origin + MAX_DISTANCE • ray.direction, ray.color)] := by
  have hsent : ray.origin.distanceSquared (ray.origin + MAX_DISTANCE • ray.direction) =
      MAX_DISTANCE ^ 2 := by
    rw [distanceSquared_ray_end, hunit, mul_one]
  have hmain : ∀ org : Option Segment, findClosestSegmentNew ray segments org = none := by
    intro org
    have hk := fcsLoop_keeps ray org segments
      ⟨ray.origin + MAX_DISTANCE • ray.direction, ray.direction⟩ ?_
    · unfold findClosestSegmentNew
      rw [hk]
    · intro seg hs p n hc
      show ray.origin.distanceSquared (ray.origin + MAX_DISTANCE • ray.direction) ≤ _
      rw [hsent]
      exact hfar seg hs p n hc
  refine ⟨hmain orig, ?_⟩
  unfold solveCollisions
  rw [solveLoop_cons_miss (not_le.mpr ha) (hmain none)]
  simp only [List.nil_append, List.length_cons, List.length_nil]
  by_cases h : maxRays ≤ 1
  · rw [if_pos h]
  · rw [if_neg h, solveLoop_nil]

/-- Evaluation: `cRay9` hits `cSeg9` exactly at `(20000, 0)`. -/
theorem cRay9_hits_cSeg9 :
    cRay9.collidesWith (cSeg9.p, cSeg9.q) = some (⟨20000, 0⟩, ⟨-1, 0⟩) := by
  show cRay9.collidesWith (⟨20000, -1⟩, ⟨20000, 1⟩) = some (⟨20000, 0⟩, ⟨-1, 0⟩)
  apply collidesWith_vertical cRay9 20000 rfl ?_ (by norm_num)
  show (Vec2.mk 1 0).normalizeOrZero = Vec2.mk 1 0
  exact nz_one_zero

/-- Witness for C9: a segment whose only hit is exactly `MAX_DISTANCE`
away is not reported, and the ray is drawn as escaping. -/
theorem C9_witness :
    (cRay9.direction.lengthSquared = 1 ∧ (0.1 : ℝ) < cRay9.color.a) ∧
    findClosestSegmentNew cRay9 [cSeg9] none = none ∧
    solveCollisions cRay9 [cSeg9] 2 =
      [(cRay9.origin, cRay9.origin + MAX_DISTANCE • cRay9.direction, cRay9.color)] := by
  have hunit : cRay9.direction.lengthSquared = 1 := by
    show (Vec2.mk 1 0).lengthSquared = 1
    simp only [Vec2.lengthSquared_mk]
    norm_num
  have ha : (0.1 : ℝ) < cRay9.color.a := by norm_num [cRay9, cColor]
  have hfar : ∀ seg ∈ [cSeg9], ∀ p n, cRay9.collidesWith (seg.p, seg.q) = some (p, n) →
      MAX_DISTANCE ^ 2 ≤ cRay9.origin.distanceSquared p := by
    intro seg hs p n hc
    rw [List.mem_singleton] at hs
    subst hs
    rw [cRay9_hits_cSeg9] at hc
    simp only [Option.some.injEq, Prod.mk.injEq] at hc
    obtain ⟨hp, _⟩ := hc
    rw [← hp]
    show MAX_DISTANCE ^ 2 ≤ (Vec2.mk 0 0).distanceSquared ⟨20000, 0⟩
    simp only [Vec2.distanceSquared_mk, MAX_DISTANCE]
    norm_num
  exact ⟨⟨hunit, ha⟩, C9_far_hits_unreported cRay9 [cSeg9] none 2 hunit ha hfar⟩

/-- C10: the exclusion of the originating segment compares by value
(componentwise derived equality): any value-equal copy anywhere in the
list is skipped, so the search result over a list containing such a
copy equals the result with the copy removed. -/
theorem C10_origin_skip_by_value (ray : Ray) (segs1 segs2 : List Segment) (s orig : Segment)
    (h : s = orig) :
    findClosestSegmentNew ray (segs1 ++ s :: segs2) (some orig) =
      findClosestSegmentNew ray (segs1 ++ segs2) (some orig) ∧
    (∀ t u : Segment, t = u ↔ (t.p = u.p ∧ t.q = u.q ∧ t.state = u.state)) := by
  constructor
  · subst h
    unfold findClosestSegmentNew
    rw [fcsLoop_append, fcsLoop_append, fcsLoop_cons, if_pos rfl]
  · intro t u
    constructor
    · intro h2
      subst h2
      exact ⟨rfl, rfl, rfl⟩
    · intro ⟨h1, h2, h3⟩
      cases t with
      | mk tp tq ts =>
        cases u with
        | mk up uq us =>
          rw [Segment.mk.injEq]
          exact ⟨h1, h2, h3⟩

/-- Witness for C10: a duplicate copy of the originating segment is
passed through as if absent. -/
theorem C10_witness :
    cSeg9 = cSeg9 ∧
    findClosestSegmentNew cRay9 [cSeg9] (some cSeg9) =
      findClosestSegmentNew cRay9 [] (some cSeg9) :=
  ⟨rfl, (C10_origin_skip_by_value cRay9 [] [] cSeg9 cSeg9 rfl).1⟩

/-! ### The scene-graph snapshot (C8) -/

/-- Characterization of the snapshot loop: it succeeds exactly when
every edge resolves, producing exactly one segment per edge in order
from the real endpoint positions. -/
theorem gacLoop_some_iff (nodes : List (ℕ × NodeData)) :
    ∀ (edges : List EdgeData) (segs : List Segment),
      gacLoop nodes edges = some segs ↔ List.Forall₂ (edgeResolves nodes) edges segs := by
  intro edges
  induction edges with
  | nil =>
    intro segs
    constructor
    · intro h
      unfold gacLoop at h
      injection h with h
      subst h
      exact List.Forall₂.nil
    · intro h
      cases h
      rfl
  | cons e rest ih =>
    intro segs
    constructor
    · intro h
      unfold gacLoop at h
      rcases hla : lookupNode nodes e.a with _ | na <;> rw [hla] at h
      · simp at h
      rcases hlb : lookupNode nodes e.b with _ | nb <;> rw [hlb] at h
      · simp at h
      rcases hg : gacLoop nodes rest with _ | segs2 <;> rw [hg] at h
      · simp at h
      injection h with h
      subst h
      exact List.Forall₂.cons ⟨na, nb, hla, hlb, rfl⟩ ((ih segs2).mp hg)
    · intro h
      cases h with
      | cons hr htail =>
        obtain ⟨na, nb, hla, hlb, hs⟩ := hr
        unfold gacLoop
        rw [hla, hlb, (ih _).mpr htail, hs]

/-- A `Forall2` relation provides a related element for every member
of its left list. -/
theorem forall2_mem_left {R : EdgeData → Segment → Prop} :
    ∀ {l1 : List EdgeData} {l2 : List Segment}, List.Forall₂ R l1 l2 →
      ∀ e ∈ l1, ∃ s, R e s := by
  intro l1 l2 h
  induction h with
  | nil =>
    intro e he
    cases he
  | cons hr _ ih =>
    intro e he
    rcases List.mem_cons.mp he with rfl | hm
    · exact ⟨_, hr⟩
    · exact ih e hm

/-- C8: the snapshot (`get_all_connections`) succeeds exactly when
every edge's endpoint ids resolve — producing exactly one segment per
edge from the real endpoint positions, never skipping an edge and
never substituting a default position — and a missing endpoint id
surfaces as the error outcome of the whole snapshot (the model of the
source's panicking map index). -/
theorem C8_snapshot_missing_endpoint (nn : NodeNetwork) :
    (∀ segs, getAllConnections nn = some segs ↔
      List.Forall₂ (edgeResolves nn.nodes) nn.connections segs) ∧
    ((∃ e ∈ nn.connections,
        lookupNode nn.nodes e.a = none ∨ lookupNode nn.nodes e.b = none) →
      getAllConnections nn = none) := by
  constructor
  · intro segs
    exact gacLoop_some_iff nn.nodes nn.connections segs
  · rintro ⟨e, he, hbad⟩
    cases hg : getAllConnections nn with
    | none => rfl
    | some segs =>
      exfalso
      have hf := (gacLoop_some_iff nn.nodes nn.connections segs).mp hg
      obtain ⟨s, hr⟩ := forall2_mem_left hf e he
      obtain ⟨na, nb, hla, hlb, _⟩ := hr
      rcases hbad with hb | hb
      · rw [hla] at hb
        simp at hb
      · rw [hlb] at hb
        simp at hb

/-- Witness for C8: a network with an edge whose endpoint id 7 is
missing yields the error outcome, not a defaulted or shortened list. -/
theorem C8_witness :
    (∃ e ∈ cBrokenNetwork.connections,
      lookupNode cBrokenNetwork.nodes e.a = none ∨
      lookupNode cBrokenNetwork.nodes e.b = none) ∧
    getAllConnections cBrokenNetwork = none := by
  have hmem : (⟨0, 7, EdgeState.Reflective⟩ : EdgeData) ∈ cBrokenNetwork.connections := by
    simp [cBrokenNetwork]
  have hlook : lookupNode cBrokenNetwork.nodes 7 = none := by
    simp [cBrokenNetwork, lookupNode, List.lookup]
  have hex : ∃ e ∈ cBrokenNetwork.connections,
      lookupNode cBrokenNetwork.nodes e.a = none ∨
      lookupNode cBrokenNetwork.nodes e.b = none :=
    ⟨⟨0, 7, EdgeState.Reflective⟩, hmem, Or.inr hlook⟩
  exact ⟨hex, (C8_snapshot_missing_endpoint cBrokenNetwork).2 hex⟩
